import Mathlib

set_option maxHeartbeats 1000000

/-!
Shallow embedding of the vacancy-collection engine of `Main.py` (class
`HHruParser`): the date-interval planner `date_range`, the paginated
retrying page loop of `get_vacancies`, the outer interval loop of
`parse`, the per-item row construction of `save_to_excel`, and the file
cleanup of `finalize_parsing`.

Modelling conventions.  Machine effects that the claims talk about are
made visible as data: every HTTP request attempt is recorded in a log
(`ReqEntry`), every `handle_network_error` report records the retry count
it was called with (`errs`), every `handle_rate_limit` 10-second backoff
bumps a counter (`rateWaits`), every `handle_general_error` bumps
`genErrs`.  The `running` flag (set to `False` by `stop`) is modelled as
a Boolean function of a global checkpoint clock `t`: the flag is read
once per evaluation of a loop condition, and each read advances `t`.
The network is an environment function from attempt index to `Response`.
-/

/-- Retry budget constant of `Main.py` (`MAX_RETRIES = 3`). -/
def MAX_RETRIES : Nat := 3

/-- Search window in days (`DATE_RANGE_DAYS = 30`). -/
def DATE_RANGE_DAYS : Int := 30

/-- Chunk size in days (`DATE_CHUNK_DAYS = 7`). -/
def DATE_CHUNK_DAYS : Int := 7

/-- One HTTP request attempt: `t` is the checkpoint time of the flag read
that guarded it, `itv` the interval index, `j` the attempt index within
the interval, `page` the requested page index (`params["page"]`). -/
structure ReqEntry where
  t : Nat
  itv : Nat
  j : Nat
  page : Nat
deriving DecidableEq, Repr

/-- Outcome of one HTTP request in `get_vacancies`, as the code
distinguishes them: a 403 (rate limit), a successful response whose JSON
carries an optional `pages` count and an `items` list, any other
non-success status (`raise_for_status` raises `ClientResponseError`,
a subclass of `aiohttp.ClientError`), a timeout / connection failure
(`aiohttp.ClientError` / `asyncio.TimeoutError`), or any other
exception (the bare `except Exception` branch). -/
inductive Response (α : Type) where
  | ok (pages : Option Nat) (items : List α)
  | forbidden
  | httpError
  | netError
  | generalError
deriving DecidableEq, Repr

/-- State of the `while` loop of `get_vacancies`: checkpoint clock `t`,
attempt counter `j`, current `page` (`params["page"]`), remaining
`retries`, accumulated `items` (`vacancies`), request log, reported
network-error retry counts, number of 10s rate-limit backoffs, number of
general-error reports. -/
structure LoopState (α : Type) where
  t : Nat
  j : Nat
  page : Nat
  retries : Nat
  items : List α
  log : List ReqEntry
  errs : List Nat
  rateWaits : Nat
  genErrs : Nat
deriving DecidableEq, Repr

/-- Whether one iteration of the page loop continues (`continue`, or
falling through to the next iteration) or leaves the loop (`break`). -/
inductive StepOut (α : Type) where
  | next (s : LoopState α)
  | done (s : LoopState α)
deriving DecidableEq, Repr

/-- The state carried by either constructor of `StepOut`. -/
def StepOut.state {α : Type} : StepOut α → LoopState α
  | .next s => s
  | .done s => s

/-- One iteration of the body of the `while` loop in `get_vacancies`,
given the response `r` to the request it issues.  Mirrors `Main.py`
lines 211-240: a 403 calls `handle_rate_limit` (message + 10s sleep) and
decrements `retries`; a success extends `vacancies` with
`data.get("items", [])` and breaks when
`params["page"] >= data.get("pages", 1) - 1`, otherwise advances the
page and resets `retries = MAX_RETRIES`; a `ClientError` /
`TimeoutError` (which includes the `raise_for_status` error of any other
non-success status) decrements `retries` and calls
`handle_network_error(e, retries)`; any other exception calls
`handle_general_error` and breaks. -/
def get_vacancies_step {α : Type} (i : Nat) (r : Response α) (s : LoopState α) : StepOut α :=
  let s0 : LoopState α :=
    { s with t := s.t + 1, j := s.j + 1, log := s.log ++ [⟨s.t, i, s.j, s.page⟩] }
  match r with
  | .forbidden =>
      .next { s0 with retries := s.retries - 1, rateWaits := s.rateWaits + 1 }
  | .ok pages items =>
      let s1 := { s0 with items := s.items ++ items }
      if pages.getD 1 - 1 ≤ s.page then .done s1
      else .next { s1 with page := s.page + 1, retries := MAX_RETRIES }
  | .httpError =>
      .next { s0 with retries := s.retries - 1, errs := s.errs ++ [s.retries - 1] }
  | .netError =>
      .next { s0 with retries := s.retries - 1, errs := s.errs ++ [s.retries - 1] }
  | .generalError =>
      .done { s0 with genErrs := s.genErrs + 1 }

/-- The `while self.running and retries > 0` loop of `get_vacancies`,
with explicit fuel (the Python loop has no structural bound, since the
`pages` value of each response may keep growing): `none` means the fuel
ran out while the loop would have continued.  `env j` is the response to
the `j`-th request attempt of this interval; `running t` is the value of
the cancellation flag at checkpoint time `t`. -/
def get_vacancies_loop {α : Type} (env : Nat → Response α) (running : Nat → Bool) (i : Nat) :
    Nat → LoopState α → Option (LoopState α)
  | 0, s =>
      if running s.t = true ∧ 0 < s.retries then none
      else some { s with t := s.t + 1 }
  | fuel + 1, s =>
      if running s.t = true ∧ 0 < s.retries then
        match get_vacancies_step i (env s.j) s with
        | .next s1 => get_vacancies_loop env running i fuel s1
        | .done s1 => some s1
      else some { s with t := s.t + 1 }

/-- Loop state at entry of `get_vacancies` for one interval:
`params["page"] = 0`, `retries = MAX_RETRIES`, `vacancies = []`; the
log, error reports and wait counters continue from the run so far. -/
def initLoop {α : Type} (t : Nat) (log : List ReqEntry) (errs : List Nat)
    (rateWaits genErrs : Nat) : LoopState α :=
  { t := t, j := 0, page := 0, retries := MAX_RETRIES, items := [], log := log,
    errs := errs, rateWaits := rateWaits, genErrs := genErrs }

/-- `get_vacancies` proper: run the page loop from the initial state and
return the accumulated `vacancies` list. -/
def get_vacancies {α : Type} (env : Nat → Response α) (running : Nat → Bool) (i : Nat)
    (fuel t : Nat) : Option (List α) :=
  (get_vacancies_loop env running i fuel (initLoop t [] [] 0 0)).map (fun s => s.items)

/-- State of the interval loop of `parse`: checkpoint clock, accumulated
`all_vacancies`, and the global request/report bookkeeping. -/
structure ParseState (α : Type) where
  t : Nat
  acc : List α
  log : List ReqEntry
  errs : List Nat
  rateWaits : Nat
  genErrs : Nat
deriving DecidableEq, Repr

/-- How the interval loop of `parse` ended: it processed every interval
and fell through to `finalize_parsing`, or it returned early because the
`running` flag was observed `False`. -/
inductive ParseOutcome where
  | completed
  | cancelled
deriving DecidableEq, Repr

/-- The `for i, (date_from, date_to) in enumerate(date_intervals)` loop
of `parse` (`Main.py` lines 133-147): at the top of each interval it
reads the `running` flag (`if not self.running: return`), then runs
`get_vacancies` for the interval and extends `all_vacancies` with its
result.  `env i j` is the response to the `j`-th request attempt of
interval `i`; `fuel` bounds each inner page loop. -/
def parse_loop {α β : Type} (env : Nat → Nat → Response α) (running : Nat → Bool)
    (fuel : Nat) :
    List β → Nat → ParseState α → Option (ParseOutcome × ParseState α)
  | [], _, s => some (.completed, s)
  | _ :: rest, i, s =>
      if running s.t = true then
        match get_vacancies_loop (env i) running i fuel
            (initLoop (s.t + 1) s.log s.errs s.rateWaits s.genErrs) with
        | none => none
        | some s1 =>
            parse_loop env running fuel rest (i + 1)
              { t := s1.t, acc := s.acc ++ s1.items, log := s1.log,
                errs := s1.errs, rateWaits := s1.rateWaits, genErrs := s1.genErrs }
      else some (.cancelled, { s with t := s.t + 1 })

/-- Items carried by a response: the `items` array of a successful
response, nothing otherwise. -/
def itemsOfR {α : Type} : Response α → List α
  | .ok _ items => items
  | _ => []

/-- Items contributed by a list of logged request attempts of a single
interval, under a per-interval environment. -/
def innerItems {α : Type} (env : Nat → Response α) : List ReqEntry → List α
  | [] => []
  | e :: es => itemsOfR (env e.j) ++ innerItems env es

/-- Items contributed by a list of logged request attempts of a whole
run, under a global environment. -/
def collectItems {α : Type} (env : Nat → Nat → Response α) : List ReqEntry → List α
  | [] => []
  | e :: es => itemsOfR (env e.itv e.j) ++ collectItems env es

/-- The `date_range` generator of `Main.py` with explicit fuel:
`current = start; while current < end: next = min(current + delta, end);
yield (current, next); current = next`.  Dates are modelled as integers
(e.g. days); `delta` is an integer. -/
def date_range_fuel : Nat → Int → Int → Int → List (Int × Int)
  | 0, _, _, _ => []
  | fuel + 1, current, e, d =>
      if current < e then
        (current, min (current + d) e) :: date_range_fuel fuel (min (current + d) e) e d
      else []

/-- `HHruParser.date_range start end delta`: with a positive `delta`
each step advances `current` by at least one, so `(end - start)`
iterations of fuel always suffice. -/
def date_range (start e d : Int) : List (Int × Int) :=
  date_range_fuel (e - start).toNat start e d

/-- A spreadsheet cell value as `save_to_excel` produces it: a string or
a number (`salary.get("from", "—")` yields either). -/
inductive Cell where
  | str : String → Cell
  | num : Int → Cell
deriving DecidableEq, Repr

/-- The `employer` sub-dictionary of a raw item (`item.get("employer")
or {}` then `.get("name", ...)`). -/
structure Employer where
  name : Option String
deriving DecidableEq, Repr

/-- The `area` sub-dictionary of a raw item. -/
structure Area where
  name : Option String
deriving DecidableEq, Repr

/-- The `salary` sub-dictionary of a raw item; keys `from`, `to`,
`currency`, each possibly absent. -/
structure Salary where
  from_ : Option Int
  to_ : Option Int
  currency : Option String
deriving DecidableEq, Repr

/-- A raw vacancy item as `save_to_excel` reads it: every field may be
absent (dictionary key missing, or sub-dictionary absent/None). -/
structure RawItem where
  name : Option String
  salary : Option Salary
  employer : Option Employer
  area : Option Area
  published_at : Option String
  alternate_url : Option String
deriving DecidableEq, Repr

/-- A salary-number cell: the value if present, the `"—"` sentinel
otherwise (`salary.get("from", "—")`). -/
def numCell (o : Option Int) : Cell :=
  match o with
  | some n => .num n
  | none => .str "—"

/-- The per-item row construction inside the `for item in vacancies`
loop of `save_to_excel` (`Main.py` lines 269-288).  `parse_date` models
`dateutil.parser.parse` followed by `strftime`: `none` when parsing
raises.  A missing `published_at` key raises `KeyError` in Python, and
both that and a parse failure are caught by the bare `except`, giving
`"N/A"`. -/
def save_to_excel_row (parse_date : String → Option String) (item : RawItem) : List Cell :=
  let salary := item.salary.getD ⟨none, none, none⟩
  let employer := item.employer.getD ⟨none⟩
  let area := item.area.getD ⟨none⟩
  let pub_date :=
    match item.published_at with
    | none => "N/A"
    | some s => (parse_date s).getD "N/A"
  [ .str (item.name.getD "Без названия"),
    .str (employer.name.getD "Компания не указана"),
    numCell salary.from_,
    numCell salary.to_,
    .str (salary.currency.getD "—"),
    .str (area.name.getD "Регион не указан"),
    .str pub_date,
    .str (item.alternate_url.getD "#") ]

/-- Outcome of `finalize_parsing`: the results file was sent; there were
no vacancies and only a text message was sent; or `send_results` raised
(the exception propagates to `parse`'s handler after the `finally`
block ran). -/
inductive FinalizeResult where
  | sent
  | noVacanciesMessage
  | sendFailed
deriving DecidableEq, Repr

/-- The filesystem is a predicate on paths; `wb.save(file_name)` creates
(or overwrites) the file. -/
def save_to_excel_file (fname : String) (fs : String → Bool) : String → Bool :=
  fun p => if p = fname then true else fs p

/-- `os.remove(fname)`. -/
def os_remove (fname : String) (fs : String → Bool) : String → Bool :=
  fun p => if p = fname then false else fs p

/-- `finalize_parsing(vacancies)` (`Main.py` lines 318-328): if the list
is non-empty, save the Excel file, try to send it (`sendOk` tells
whether `send_results` succeeds), and in the `finally` block remove the
file if it exists; otherwise just send the "no vacancies" message.
Returns the outcome together with the final filesystem. -/
def finalize_parsing {α : Type} (vacancies : List α) (fname : String) (sendOk : Bool)
    (fs : String → Bool) : FinalizeResult × (String → Bool) :=
  if vacancies.isEmpty then (.noVacanciesMessage, fs)
  else
    let fs1 := save_to_excel_file fname fs
    let r := if sendOk then FinalizeResult.sent else FinalizeResult.sendFailed
    let fs2 := if fs1 fname then os_remove fname fs1 else fs1
    (r, fs2)

/-! ### Basic unfolding lemmas for the page loop -/

theorem loop_exit_retries {α : Type} (env : Nat → Response α) (running : Nat → Bool)
    (i fuel : Nat) (s : LoopState α) (h : s.retries = 0) :
    get_vacancies_loop env running i fuel s = some { s with t := s.t + 1 } := by
  cases fuel <;> simp [get_vacancies_loop, h]

theorem loop_exit_flag {α : Type} (env : Nat → Response α) (running : Nat → Bool)
    (i fuel : Nat) (s : LoopState α) (h : running s.t = false) :
    get_vacancies_loop env running i fuel s = some { s with t := s.t + 1 } := by
  cases fuel <;> simp [get_vacancies_loop, h]

theorem loop_cont {α : Type} (env : Nat → Response α) (running : Nat → Bool)
    (i fuel : Nat) (s : LoopState α) (h1 : running s.t = true) (h2 : 0 < s.retries)
    (h3 : 0 < fuel) :
    get_vacancies_loop env running i fuel s =
      match get_vacancies_step i (env s.j) s with
      | .next s1 => get_vacancies_loop env running i (fuel - 1) s1
      | .done s1 => some s1 := by
  cases fuel with
  | zero => omega
  | succ f => simp [get_vacancies_loop, h1, h2]

/-! ### Claims C1 and C4: 403 and non-403 error handling -/

/-- Claim C1, counterexample: handling a single 403 response does change
the retry budget.  One `get_vacancies_step` on `.forbidden` from the
interval-initial state leaves `retries = 2 ≠ 3 = MAX_RETRIES`, and a
whole interval whose first response is a 403 followed by a clean final
page ends with `retries = 2` and one 10-second backoff recorded. -/
theorem rate_limit_decrements_budget_cex :
    (get_vacancies_step 0 Response.forbidden
        (initLoop 0 [] [] 0 0 : LoopState Nat)).state.retries ≠
      (initLoop 0 [] [] 0 0 : LoopState Nat).retries ∧
    (get_vacancies_loop (fun j => if j = 0 then Response.forbidden else Response.ok (some 1) [])
        (fun _ => true) 0 2 (initLoop 0 [] [] 0 0 : LoopState Nat)).map
        (fun s => (s.retries, s.rateWaits)) = some (2, 1) := by
  decide

/-- Claim C1 (amended): in the page-fetch loop an HTTP 403 response
triggers the fixed 10-second backoff of `handle_rate_limit` and a retry
of the same page (the loop continues with `page` unchanged), but it
consumes one unit of the shared retry budget: the number of remaining
retries after handling a 403 is one less than before, exactly as for a
network error. -/
theorem rate_limit_step {α : Type} (i : Nat) (s : LoopState α) :
    get_vacancies_step i Response.forbidden s =
      .next { s with
        t := s.t + 1,
        j := s.j + 1,
        log := s.log ++ [⟨s.t, i, s.j, s.page⟩],
        retries := s.retries - 1,
        rateWaits := s.rateWaits + 1 } := rfl

/-- Claim C4, counterexample: a non-success status other than 403 does
not make the interval's page loop exit immediately.  With a first
response of status 500 (`raise_for_status` raises `ClientResponseError`,
an `aiohttp.ClientError`) and a clean single final page afterwards, the
engine issues two requests for page 0 (the failed page is retried), the
error is reported through `handle_network_error` (`errs = [2]`, no
general-error report), and the page's items are still collected. -/
theorem protocol_error_retried_cex :
    get_vacancies_loop (fun j => if j = 0 then Response.httpError else Response.ok (some 1) [7])
        (fun _ => true) 0 2 (initLoop 0 [] [] 0 0 : LoopState Nat) =
      some { t := 2, j := 2, page := 0, retries := 2, items := [7],
             log := [⟨0, 0, 0, 0⟩, ⟨1, 0, 1, 0⟩], errs := [2], rateWaits := 0,
             genErrs := 0 } := by
  decide

/-- Claim C4 (amended): for every response with a non-success status
other than 403, `response.raise_for_status()` raises
`ClientResponseError`, a subclass of `aiohttp.ClientError`, so the
failure is handled exactly like a network error: it is reported through
`handle_network_error` with the decremented retry count, it consumes one
unit of the shared retry budget, and the same page is retried (the loop
continues with `page` unchanged); the interval's page loop exits only
once the budget is exhausted, and the run then continues with the next
interval. -/
theorem protocol_error_step {α : Type} (i : Nat) (s : LoopState α) :
    get_vacancies_step i Response.httpError s = get_vacancies_step i Response.netError s ∧
    get_vacancies_step i Response.httpError s =
      .next { s with
        t := s.t + 1,
        j := s.j + 1,
        log := s.log ++ [⟨s.t, i, s.j, s.page⟩],
        retries := s.retries - 1,
        errs := s.errs ++ [s.retries - 1] } :=
  ⟨rfl, rfl⟩

/-! ### Claim C9: missing "pages" key defaults to one page -/

/-- Claim C9: if a successful response's JSON body lacks the `"pages"`
key, `data.get("pages", 1)` defaults the total page count to 1, so at
page index 0 the loop keeps the page's items and breaks immediately:
exactly one request is issued for the interval. -/
theorem get_vacancies_pages_default {α : Type} (env : Nat → Response α)
    (running : Nat → Bool) (i t0 : Nat) (log0 : List ReqEntry) (E0 : List Nat)
    (R0 G0 : Nat) (its : List α) (fuel : Nat)
    (henv : env 0 = Response.ok none its) (hrun : running t0 = true) :
    get_vacancies_loop env running i (fuel + 1) (initLoop t0 log0 E0 R0 G0) =
      some { t := t0 + 1, j := 1, page := 0, retries := MAX_RETRIES, items := its,
             log := log0 ++ [⟨t0, i, 0, 0⟩], errs := E0, rateWaits := R0,
             genErrs := G0 } := by
  simp [get_vacancies_loop, initLoop, hrun, henv, get_vacancies_step, MAX_RETRIES]

/-- Claim C9, witness: a concrete interval whose single response has no
`"pages"` key: one request, its items kept, loop finished. -/
theorem get_vacancies_pages_default_witness :
    get_vacancies_loop (fun _ => Response.ok none [9]) (fun _ => true) 0 4
        (initLoop 0 [] [] 0 0 : LoopState Nat) =
      some { t := 1, j := 1, page := 0, retries := MAX_RETRIES, items := [9],
             log := [⟨0, 0, 0, 0⟩], errs := [], rateWaits := 0, genErrs := 0 } := by
  have h := get_vacancies_pages_default (fun _ => Response.ok none [9]) (fun _ => true)
      0 0 [] [] 0 0 [9] 3 rfl rfl
  simpa using h

/-! ### Claim C7: total row construction with sentinels -/

/-- Claim C7: the per-item row construction of `save_to_excel` is a
total deterministic function (a Lean function by construction, so it
never raises): every item yields a complete 8-cell row, a missing title
gives the generic fallback, a missing salary dictionary gives `"—"` for
salary-from, salary-to and currency, a missing or unparsable publish
date gives `"N/A"` (date-parsing failure is caught locally), and a
missing URL gives `"#"`. -/
theorem save_to_excel_row_total (pd : String → Option String) (item : RawItem) :
    (save_to_excel_row pd item).length = 8 ∧
    (item.name = none →
      (save_to_excel_row pd item)[0]? = some (.str "Без названия")) ∧
    (item.salary = none →
      (save_to_excel_row pd item)[2]? = some (.str "—") ∧
      (save_to_excel_row pd item)[3]? = some (.str "—") ∧
      (save_to_excel_row pd item)[4]? = some (.str "—")) ∧
    (item.published_at = none →
      (save_to_excel_row pd item)[6]? = some (.str "N/A")) ∧
    (∀ s, item.published_at = some s → pd s = none →
      (save_to_excel_row pd item)[6]? = some (.str "N/A")) ∧
    (item.alternate_url = none →
      (save_to_excel_row pd item)[7]? = some (.str "#")) := by
  refine ⟨by simp [save_to_excel_row], ?_, ?_, ?_, ?_, ?_⟩
  · intro h; simp [save_to_excel_row, h]
  · intro h; simp [save_to_excel_row, numCell, h]
  · intro h; simp [save_to_excel_row, h]
  · intro s hs hpd; simp [save_to_excel_row, hs, hpd]
  · intro h; simp [save_to_excel_row, h]

/-- Claim C7, witness: the raw item missing every optional field maps to
the all-sentinel row without error. -/
theorem save_to_excel_row_total_witness :
    (save_to_excel_row (fun _ => none) ⟨none, none, none, none, none, none⟩).length = 8 ∧
    (save_to_excel_row (fun _ => none) ⟨none, none, none, none, none, none⟩)[0]? =
      some (.str "Без названия") ∧
    (save_to_excel_row (fun _ => none) ⟨none, none, none, none, none, none⟩)[2]? =
      some (.str "—") ∧
    (save_to_excel_row (fun _ => none) ⟨none, none, none, none, none, none⟩)[6]? =
      some (.str "N/A") ∧
    (save_to_excel_row (fun _ => none) ⟨none, none, none, none, none, none⟩)[7]? =
      some (.str "#") := by
  have h := save_to_excel_row_total (fun _ => none) ⟨none, none, none, none, none, none⟩
  exact ⟨h.1, h.2.1 rfl, (h.2.2.1 rfl).1, h.2.2.2.1 rfl, h.2.2.2.2.2 rfl⟩

/-! ### Claim C10: finalize_parsing leaves no report file behind -/

/-- Claim C10: whenever `save_to_excel` produced a file (the vacancies
list is non-empty), `finalize_parsing` removes that file in its
`finally` block after attempting to send it, whether or not the send
succeeded, and it touches no other path: the report file never remains
on disk once `finalize_parsing` returns. -/
theorem finalize_parsing_removes_file {α : Type} (v : List α) (fname : String)
    (sendOk : Bool) (fs : String → Bool) (hv : v ≠ []) :
    (finalize_parsing v fname sendOk fs).2 fname = false ∧
    ∀ p, p ≠ fname → (finalize_parsing v fname sendOk fs).2 p = fs p := by
  cases v with
  | nil => exact absurd rfl hv
  | cons a l =>
    constructor
    · simp [finalize_parsing, save_to_excel_file, os_remove]
    · intro p hp
      simp [finalize_parsing, save_to_excel_file, os_remove, hp]

/-- Claim C10, witness: a one-item run with a failing send still ends
with the report file absent and an unrelated path untouched. -/
theorem finalize_parsing_removes_file_witness :
    (finalize_parsing [1] "report.xlsx" false (fun _ => false)).2 "report.xlsx" = false ∧
    (finalize_parsing [1] "report.xlsx" false (fun _ => false)).2 "other.txt" = false := by
  have h := finalize_parsing_removes_file [1] "report.xlsx" false (fun _ => false)
      (by simp)
  exact ⟨h.1, h.2 "other.txt" (by decide)⟩

/-! ### Claim C2: the interval planner -/

theorem date_range_fuel_nil (fuel : Nat) (cur e d : Int) (h : ¬ cur < e) :
    date_range_fuel fuel cur e d = [] := by
  cases fuel <;> simp [date_range_fuel, h]

theorem date_range_fuel_cons (fuel : Nat) (cur e d : Int) (h : cur < e) :
    date_range_fuel (fuel + 1) cur e d =
      (cur, min (cur + d) e) :: date_range_fuel fuel (min (cur + d) e) e d := by
  simp [date_range_fuel, h]

theorem chain'_cons_head {γ : Type} {R : γ → γ → Prop} {x y : γ} {l : List γ}
    (hh : l.head? = some y) (hR : R x y) (hc : l.Chain' R) : (x :: l).Chain' R := by
  cases l with
  | nil => simp at hh
  | cons a t2 =>
    simp at hh
    subst hh
    exact List.chain'_cons.mpr ⟨hR, hc⟩

theorem ceil_div_base (a dn : Nat) (h1 : 1 ≤ a) (h2 : a ≤ dn) :
    (a + dn - 1) / dn = 1 := by
  have h3 : a + dn - 1 = (a - 1) + dn := by omega
  rw [h3, Nat.add_div_right _ (by omega : 0 < dn), Nat.div_eq_of_lt (by omega)]

theorem ceil_div_step (a dn : Nat) (h1 : 1 ≤ dn) (h2 : dn < a) :
    (a - dn + dn - 1) / dn + 1 = (a + dn - 1) / dn := by
  have h3 : a - dn + dn - 1 = a - 1 := by omega
  have h4 : a + dn - 1 = (a - 1) + dn := by omega
  rw [h3, h4, Nat.add_div_right _ (by omega : 0 < dn)]

theorem date_range_fuel_spec (e d : Int) (hd : 1 ≤ d) :
    ∀ fuel (cur : Int), cur < e → (e - cur).toNat ≤ fuel →
      date_range_fuel fuel cur e d ≠ [] ∧
      (∀ p ∈ date_range_fuel fuel cur e d, p.1 < p.2) ∧
      (date_range_fuel fuel cur e d).head? = some (cur, min (cur + d) e) ∧
      (date_range_fuel fuel cur e d).Chain' (fun p q => p.2 = q.1) ∧
      ((date_range_fuel fuel cur e d).getLast?).map Prod.snd = some e ∧
      (date_range_fuel fuel cur e d).length =
        ((e - cur).toNat + d.toNat - 1) / d.toNat := by
  intro fuel
  induction fuel with
  | zero => intro cur hlt hf; exfalso; omega
  | succ f ih =>
    intro cur hlt hf
    by_cases hend : e ≤ cur + d
    · have hmin : min (cur + d) e = e := min_eq_right hend
      have hnil : date_range_fuel f (min (cur + d) e) e d = [] := by
        rw [hmin]; exact date_range_fuel_nil f e e d (by omega)
      rw [date_range_fuel_cons f cur e d hlt, hnil, hmin]
      refine ⟨by simp, ?_, by simp, List.chain'_singleton _, by simp, ?_⟩
      · intro p hp
        simp at hp
        subst hp
        simpa using hlt
      · simp only [List.length_cons, List.length_nil]
        rw [ceil_div_base ((e - cur).toNat) d.toNat (by omega) (by omega)]
    · have hlt2 : cur + d < e := by omega
      have hmin : min (cur + d) e = cur + d := min_eq_left (le_of_lt hlt2)
      obtain ⟨ihne, ihmem, ihhead, ihchain, ihlast, ihlen⟩ :=
        ih (cur + d) hlt2 (by omega)
      rw [date_range_fuel_cons f cur e d hlt, hmin]
      refine ⟨by simp, ?_, by simp, ?_, ?_, ?_⟩
      · intro p hp
        rcases List.mem_cons.mp hp with h | h
        · subst h; simp; omega
        · exact ihmem p h
      · exact chain'_cons_head ihhead rfl ihchain
      · obtain ⟨b, l2, heq⟩ := List.exists_cons_of_ne_nil ihne
        rw [heq] at ihlast ⊢
        rw [List.getLast?_cons_cons]
        exact ihlast
      · rw [List.length_cons, ihlen]
        have ha : (e - (cur + d)).toNat = (e - cur).toNat - d.toNat := by omega
        rw [ha]
        exact ceil_div_step ((e - cur).toNat) d.toNat (by omega) (by omega)

/-- Claim C2: for every pair of dates with `start < end` and every
positive chunk length `d`, `date_range start end d` yields a non-empty
list of half-open intervals: each interval's start is strictly below its
end, the first starts at `start`, consecutive intervals are contiguous
(each end equals the next start), the final interval's end is exactly
`end`, and the number of intervals is `ceil((end - start) / d)`. -/
theorem date_range_spec (start e d : Int) (hlt : start < e) (hd : 1 ≤ d) :
    date_range start e d ≠ [] ∧
    (∀ p ∈ date_range start e d, p.1 < p.2) ∧
    ((date_range start e d).head?).map Prod.fst = some start ∧
    (date_range start e d).Chain' (fun p q => p.2 = q.1) ∧
    ((date_range start e d).getLast?).map Prod.snd = some e ∧
    (date_range start e d).length = ((e - start).toNat + d.toNat - 1) / d.toNat := by
  obtain ⟨h1, h2, h3, h4, h5, h6⟩ :=
    date_range_fuel_spec e d hd (e - start).toNat start hlt le_rfl
  refine ⟨h1, h2, ?_, h4, h5, h6⟩
  rw [date_range] at *
  rw [h3]
  rfl

/-- Claim C2, witness: the production window `30` days with `7`-day
chunks gives `ceil(30/7) = 5` intervals ending exactly at the window
end. -/
theorem date_range_spec_witness :
    date_range 0 30 7 ≠ [] ∧
    ((date_range 0 30 7).head?).map Prod.fst = some 0 ∧
    ((date_range 0 30 7).getLast?).map Prod.snd = some 30 ∧
    (date_range 0 30 7).length = 5 := by
  have h := date_range_spec 0 30 7 (by norm_num) (by norm_num)
  refine ⟨h.1, h.2.2.1, h.2.2.2.2.1, ?_⟩
  have h6 := h.2.2.2.2.2
  simpa using h6

/-! ### Loop invariants shared by the engine claims -/

theorem loop_exit_neg {α : Type} (env : Nat → Response α) (running : Nat → Bool)
    (i fuel : Nat) (s : LoopState α) (hc : ¬(running s.t = true ∧ 0 < s.retries)) :
    get_vacancies_loop env running i fuel s = some { s with t := s.t + 1 } := by
  cases fuel <;> simp [get_vacancies_loop, hc]

theorem loop_succ_cont {α : Type} (env : Nat → Response α) (running : Nat → Bool)
    (i f : Nat) (s : LoopState α) (hc : running s.t = true ∧ 0 < s.retries) :
    get_vacancies_loop env running i (f + 1) s =
      match get_vacancies_step i (env s.j) s with
      | .next s1 => get_vacancies_loop env running i f s1
      | .done s1 => some s1 := by
  simp [get_vacancies_loop, hc]

theorem step_state_facts {α : Type} (i : Nat) (r : Response α) (s : LoopState α) :
    (get_vacancies_step i r s).state.t = s.t + 1 ∧
    (get_vacancies_step i r s).state.log = s.log ++ [⟨s.t, i, s.j, s.page⟩] ∧
    (get_vacancies_step i r s).state.items = s.items ++ itemsOfR r := by
  cases r with
  | ok pages items =>
    simp only [get_vacancies_step, itemsOfR]
    split <;> simp [StepOut.state]
  | forbidden => simp [get_vacancies_step, StepOut.state, itemsOfR]
  | httpError => simp [get_vacancies_step, StepOut.state, itemsOfR]
  | netError => simp [get_vacancies_step, StepOut.state, itemsOfR]
  | generalError => simp [get_vacancies_step, StepOut.state, itemsOfR]

theorem loop_inv {α : Type} (env : Nat → Response α) (running : Nat → Bool) (i : Nat) :
    ∀ fuel (s s1 : LoopState α), get_vacancies_loop env running i fuel s = some s1 →
      ∃ new, s1.log = s.log ++ new ∧
        (∀ e ∈ new, running e.t = true ∧ e.itv = i) ∧
        s1.items = s.items ++ innerItems env new := by
  intro fuel
  induction fuel with
  | zero =>
    intro s s1 h
    by_cases hc : running s.t = true ∧ 0 < s.retries
    · simp [get_vacancies_loop, hc] at h
    · rw [loop_exit_neg env running i 0 s hc] at h
      obtain rfl := Option.some.inj h
      exact ⟨[], by simp, by simp, by simp [innerItems]⟩
  | succ f ihf =>
    intro s s1 h
    by_cases hc : running s.t = true ∧ 0 < s.retries
    · rw [loop_succ_cont env running i f s hc] at h
      have hsf := step_state_facts i (env s.j) s
      cases hstep : get_vacancies_step i (env s.j) s with
      | next s2 =>
        rw [hstep] at h hsf
        simp only [StepOut.state] at hsf
        obtain ⟨new, hlog, hmem, hitems⟩ := ihf s2 s1 h
        refine ⟨⟨s.t, i, s.j, s.page⟩ :: new, ?_, ?_, ?_⟩
        · rw [hlog, hsf.2.1]; simp
        · intro e' he'
          rcases List.mem_cons.mp he' with rfl | hm
          · exact ⟨hc.1, rfl⟩
          · exact hmem e' hm
        · rw [hitems, hsf.2.2]
          simp [innerItems]
      | done s2 =>
        rw [hstep] at h hsf
        simp only [StepOut.state] at hsf
        obtain rfl := Option.some.inj h
        refine ⟨[⟨s.t, i, s.j, s.page⟩], ?_, ?_, ?_⟩
        · rw [hsf.2.1]
        · intro e' he'
          rcases List.mem_cons.mp he' with rfl | hm
          · exact ⟨hc.1, rfl⟩
          · simp at hm
        · rw [hsf.2.2]; simp [innerItems]
    · rw [loop_exit_neg env running i (f + 1) s hc] at h
      obtain rfl := Option.some.inj h
      exact ⟨[], by simp, by simp, by simp [innerItems]⟩

theorem collectItems_append {α : Type} (env : Nat → Nat → Response α)
    (l1 l2 : List ReqEntry) :
    collectItems env (l1 ++ l2) = collectItems env l1 ++ collectItems env l2 := by
  induction l1 with
  | nil => simp [collectItems]
  | cons e es ih => simp [collectItems, ih]

theorem collectItems_of_itv {α : Type} (env : Nat → Nat → Response α) (i : Nat) :
    ∀ l : List ReqEntry, (∀ e ∈ l, e.itv = i) →
      collectItems env l = innerItems (env i) l := by
  intro l
  induction l with
  | nil => intro _; simp [collectItems, innerItems]
  | cons e es ih =>
    intro h
    have he : e.itv = i := h e (List.mem_cons_self e es)
    rw [collectItems, innerItems, he, ih (fun e' he' => h e' (List.mem_cons_of_mem e he'))]

theorem parse_loop_cons_run {α β : Type} (env : Nat → Nat → Response α)
    (running : Nat → Bool) (fuel : Nat) (b : β) (rest : List β) (i : Nat)
    (s : ParseState α) (hr : running s.t = true) :
    parse_loop env running fuel (b :: rest) i s =
      match get_vacancies_loop (env i) running i fuel
          (initLoop (s.t + 1) s.log s.errs s.rateWaits s.genErrs) with
      | none => none
      | some s1 =>
          parse_loop env running fuel rest (i + 1)
            { t := s1.t, acc := s.acc ++ s1.items, log := s1.log,
              errs := s1.errs, rateWaits := s1.rateWaits, genErrs := s1.genErrs } := by
  simp [parse_loop, hr]

theorem parse_loop_cons_stop {α β : Type} (env : Nat → Nat → Response α)
    (running : Nat → Bool) (fuel : Nat) (b : β) (rest : List β) (i : Nat)
    (s : ParseState α) (hr : running s.t = false) :
    parse_loop env running fuel (b :: rest) i s =
      some (.cancelled, { s with t := s.t + 1 }) := by
  simp [parse_loop, hr]

theorem parse_inv {α β : Type} (env : Nat → Nat → Response α) (running : Nat → Bool)
    (fuel : Nat) :
    ∀ (L : List β) (i : Nat) (s : ParseState α) out s1,
      parse_loop env running fuel L i s = some (out, s1) →
      ∃ new, s1.log = s.log ++ new ∧ (∀ e ∈ new, running e.t = true) ∧
        s1.acc = s.acc ++ collectItems env new := by
  intro L
  induction L with
  | nil =>
    intro i s out s1 h
    simp [parse_loop] at h
    obtain ⟨rfl, rfl⟩ := h
    exact ⟨[], by simp, by simp, by simp [collectItems]⟩
  | cons b rest ihL =>
    intro i s out s1 h
    by_cases hr : running s.t = true
    · rw [parse_loop_cons_run env running fuel b rest i s hr] at h
      cases hin : get_vacancies_loop (env i) running i fuel
          (initLoop (s.t + 1) s.log s.errs s.rateWaits s.genErrs) with
      | none => rw [hin] at h; simp at h
      | some s2 =>
        rw [hin] at h
        obtain ⟨new1, hlog1, hmem1, hitems1⟩ := loop_inv (env i) running i fuel _ s2 hin
        obtain ⟨new2, hlog2, hmem2, hacc2⟩ := ihL (i + 1) _ out s1 h
        simp only [initLoop] at hlog1 hitems1
        refine ⟨new1 ++ new2, ?_, ?_, ?_⟩
        · rw [hlog2]; simp only; rw [hlog1, List.append_assoc]
        · intro e' he'
          rcases List.mem_append.mp he' with hm | hm
          · exact (hmem1 e' hm).1
          · exact hmem2 e' hm
        · rw [hacc2]; simp only
          rw [hitems1, collectItems_append,
            collectItems_of_itv env i new1 (fun e' he' => (hmem1 e' he').2)]
          simp [List.append_assoc]
    · rw [parse_loop_cons_stop env running fuel b rest i s
          (by revert hr; cases running s.t <;> simp)] at h
      obtain ⟨rfl, rfl⟩ := Prod.mk.injEq .. ▸ Option.some.inj h
      exact ⟨[], by simp, by simp, by simp [collectItems]⟩

theorem loop_cancel_some {α : Type} (env : Nat → Response α) (running : Nat → Bool)
    (i c : Nat) (hc : ∀ k, c ≤ k → running k = false) :
    ∀ fuel (s : LoopState α), c ≤ s.t + fuel →
      (get_vacancies_loop env running i fuel s).isSome = true := by
  intro fuel
  induction fuel with
  | zero =>
    intro s hle
    have hf : running s.t = false := hc s.t (by omega)
    rw [loop_exit_neg env running i 0 s (by simp [hf])]
    simp
  | succ f ihf =>
    intro s hle
    by_cases hcc : running s.t = true ∧ 0 < s.retries
    · rw [loop_succ_cont env running i f s hcc]
      have hsf := step_state_facts i (env s.j) s
      cases hstep : get_vacancies_step i (env s.j) s with
      | next s2 =>
        rw [hstep] at hsf
        simp only [StepOut.state] at hsf
        have ht := hsf.1
        exact ihf s2 (by omega)
      | done s2 => simp
    · rw [loop_exit_neg env running i (f + 1) s hcc]
      simp

theorem parse_cancel_some {α β : Type} (env : Nat → Nat → Response α)
    (running : Nat → Bool) (fuel c : Nat) (hc : ∀ k, c ≤ k → running k = false)
    (hf : c ≤ fuel) :
    ∀ (L : List β) (i : Nat) (s : ParseState α),
      (parse_loop env running fuel L i s).isSome = true := by
  intro L
  induction L with
  | nil => intro i s; simp [parse_loop]
  | cons b rest ihL =>
    intro i s
    by_cases hr : running s.t = true
    · rw [parse_loop_cons_run env running fuel b rest i s hr]
      have hin := loop_cancel_some (env i) running i c hc fuel
          (initLoop (s.t + 1) s.log s.errs s.rateWaits s.genErrs)
          (by simp [initLoop]; omega)
      cases hsome : get_vacancies_loop (env i) running i fuel
          (initLoop (s.t + 1) s.log s.errs s.rateWaits s.genErrs) with
      | none => rw [hsome] at hin; simp at hin
      | some s2 => exact ihL (i + 1) _
    · rw [parse_loop_cons_stop env running fuel b rest i s
          (by revert hr; cases running s.t <;> simp)]
      simp

/-- Claim C6: after `stop()` sets `running = False` (modelled as the
flag reading `false` from checkpoint `c` on), the flag is checked at the
top of every interval iteration and of every page-loop iteration: the
run terminates (any fuel of at least `c` suffices), every request issued
during the whole run was guarded by a checkpoint at which the flag read
`true` — hence strictly before `c`, so no request is issued from the
first checkpoint that observes the cancellation — and the final
accumulator consists exactly of the items of the requests issued before
that checkpoint. -/
theorem parse_cancellation {α β : Type} (env : Nat → Nat → Response α)
    (running : Nat → Bool) (fuel : Nat) (L : List β) (i : Nat) (s : ParseState α)
    (c : Nat) (hc : ∀ k, c ≤ k → running k = false) :
    (c ≤ fuel → (parse_loop env running fuel L i s).isSome = true) ∧
    (∀ out s1, parse_loop env running fuel L i s = some (out, s1) →
      ∃ new, s1.log = s.log ++ new ∧
        (∀ e ∈ new, running e.t = true ∧ e.t < c) ∧
        s1.acc = s.acc ++ collectItems env new) := by
  constructor
  · intro hf
    exact parse_cancel_some env running fuel c hc hf L i s
  · intro out s1 h
    obtain ⟨new, hlog, hmem, hacc⟩ := parse_inv env running fuel L i s out s1 h
    refine ⟨new, hlog, ?_, hacc⟩
    intro e he
    have htrue := hmem e he
    refine ⟨htrue, ?_⟩
    by_contra hge
    have := hc e.t (by omega)
    rw [this] at htrue
    exact Bool.false_ne_true htrue

/-- Claim C6, witness: with the flag false from the very start, a
five-interval run is cancelled at the first checkpoint with no request
issued and an empty accumulator. -/
theorem parse_cancellation_witness :
    (parse_loop (fun _ _ => (Response.ok none [] : Response Nat)) (fun _ => false) 0
        [0, 1, 2, 3, 4] 0 ⟨0, [], [], [], 0, 0⟩).isSome = true := by
  exact (parse_cancellation (fun _ _ => (Response.ok none [] : Response Nat))
      (fun _ => false) 0 [0, 1, 2, 3, 4] 0 ⟨0, [], [], [], 0, 0⟩ 0
      (fun _ _ => rfl)).1 (Nat.le_refl 0)

theorem net_error_exhaust {α : Type} (env : Nat → Response α) (running : Nat → Bool)
    (i : Nat) (henv : ∀ j, env j = Response.netError) (hrun : ∀ k, running k = true)
    (k t0 : Nat) (log0 : List ReqEntry) (E0 : List Nat) (R0 G0 : Nat) :
    get_vacancies_loop env running i (k + 3) (initLoop t0 log0 E0 R0 G0 : LoopState α) =
      some { t := t0 + 4, j := 3, page := 0, retries := 0, items := [],
             log := log0 ++ [⟨t0, i, 0, 0⟩, ⟨t0 + 1, i, 1, 0⟩, ⟨t0 + 2, i, 2, 0⟩],
             errs := E0 ++ [2, 1, 0], rateWaits := R0, genErrs := G0 } := by
  simp [get_vacancies_loop, get_vacancies_step, initLoop, henv, hrun, MAX_RETRIES]
  rw [loop_exit_retries env running i k _ rfl]

/-- Claim C3: for an interval every one of whose page fetches raises a
network error, the engine retries until the shared budget (default 3) is
exhausted, reporting each failure through `handle_network_error` with
the remaining retries (2, then 1, then 0), keeps the items already
accumulated for that interval (here zero) and everything accumulated
before, and the outer loop proceeds to the next interval: the run is not
aborted and the whole run continues exactly as if started at the next
interval with three failed attempts logged. -/
theorem network_error_budget_exhaustion {α β : Type} (env : Nat → Nat → Response α)
    (running : Nat → Bool) (fuel : Nat) (b : β) (rest : List β) (i : Nat)
    (s : ParseState α) (henv : ∀ j, env i j = Response.netError)
    (hrun : ∀ k, running k = true) (hfuel : MAX_RETRIES ≤ fuel) :
    parse_loop env running fuel (b :: rest) i s =
      parse_loop env running fuel rest (i + 1)
        { t := s.t + 5, acc := s.acc,
          log := s.log ++ [⟨s.t + 1, i, 0, 0⟩, ⟨s.t + 2, i, 1, 0⟩, ⟨s.t + 3, i, 2, 0⟩],
          errs := s.errs ++ [2, 1, 0], rateWaits := s.rateWaits,
          genErrs := s.genErrs } := by
  have h3 : 3 ≤ fuel := hfuel
  obtain ⟨k, rfl⟩ : ∃ k, fuel = k + 3 := ⟨fuel - 3, by omega⟩
  rw [parse_loop_cons_run env running (k + 3) b rest i s (hrun s.t)]
  rw [net_error_exhaust (env i) running i henv hrun k (s.t + 1) s.log s.errs
      s.rateWaits s.genErrs]
  simp

theorem success_run_aux {α : Type} (env : Nat → Response α) (running : Nat → Bool)
    (i n : Nat) (f : Nat → List α) (hrun : ∀ k, running k = true)
    (henv : ∀ j, env j = Response.ok (some n) (f j)) :
    ∀ m fuel p tb (its0 : List α) (log0 : List ReqEntry) (E0 : List Nat) (R0 G0 : Nat),
      p + m = n → 1 ≤ m → m ≤ fuel →
      get_vacancies_loop env running i fuel
          { t := tb + p, j := p, page := p, retries := MAX_RETRIES, items := its0,
            log := log0, errs := E0, rateWaits := R0, genErrs := G0 } =
        some { t := tb + n, j := n, page := n - 1, retries := MAX_RETRIES,
               items := its0 ++ ((List.range' p m).map f).flatten,
               log := log0 ++ (List.range' p m).map (fun q => ⟨tb + q, i, q, q⟩),
               errs := E0, rateWaits := R0, genErrs := G0 } := by
  intro m
  induction m with
  | zero =>
    intro fuel p tb its0 log0 E0 R0 G0 hpm h1 h2
    omega
  | succ m ihm =>
    intro fuel p tb its0 log0 E0 R0 G0 hpm h1 h2
    obtain ⟨fu, rfl⟩ : ∃ fu, fuel = fu + 1 := ⟨fuel - 1, by omega⟩
    rw [loop_succ_cont env running i fu _ ⟨hrun _, by simp [MAX_RETRIES]⟩]
    simp only [henv]
    cases m with
    | zero =>
      have hcond : n - 1 ≤ p := by omega
      simp [get_vacancies_step, hcond, List.range'_one]
      omega
    | succ m2 =>
      simp only [get_vacancies_step]
      rw [if_neg (show ¬((some n).getD 1 - 1 ≤ p) by simp; omega)]
      have h := ihm fu (p + 1) tb (its0 ++ f p) (log0 ++ [⟨tb + p, i, p, p⟩]) E0 R0 G0
          (by omega) (by omega) (by omega)
      rw [List.range'_succ]
      simp only [List.map_cons, List.flatten_cons]
      simp only [List.append_assoc, List.cons_append, List.nil_append] at h
      exact h

/-- Claim C5: for an interval all of whose responses succeed and report
a fixed total page count `n ≥ 1` (page `j`'s items being `f j`), the
engine issues exactly `n` page requests with page indices strictly
increasing `0, 1, ..., n-1` (the logged requests are exactly
`List.range' 0 n`), stops after the page whose index is `n - 1`, and the
accumulated items are the concatenation of all `n` pages' items in fetch
order. -/
theorem get_vacancies_success_pages {α : Type} (env : Nat → Response α)
    (running : Nat → Bool) (i n fuel tb : Nat) (f : Nat → List α)
    (log0 : List ReqEntry) (E0 : List Nat) (R0 G0 : Nat)
    (hrun : ∀ k, running k = true) (henv : ∀ j, env j = Response.ok (some n) (f j))
    (hn : 1 ≤ n) (hfuel : n ≤ fuel) :
    get_vacancies_loop env running i fuel (initLoop tb log0 E0 R0 G0) =
      some { t := tb + n, j := n, page := n - 1, retries := MAX_RETRIES,
             items := ((List.range' 0 n).map f).flatten,
             log := log0 ++ (List.range' 0 n).map (fun q => ⟨tb + q, i, q, q⟩),
             errs := E0, rateWaits := R0, genErrs := G0 } := by
  have h := success_run_aux env running i n f hrun henv n fuel 0 tb [] log0 E0 R0 G0
      (by omega) hn hfuel
  simpa [initLoop] using h

/-- Claim C5, witness: three clean pages with one item each are fetched
in order 0, 1, 2 with exactly three requests and concatenated items. -/
theorem get_vacancies_success_pages_witness :
    get_vacancies_loop (fun j => Response.ok (some 3) [j]) (fun _ => true) 0 3
        (initLoop 0 [] [] 0 0 : LoopState Nat) =
      some { t := 3, j := 3, page := 2, retries := MAX_RETRIES, items := [0, 1, 2],
             log := [⟨0, 0, 0, 0⟩, ⟨1, 0, 1, 1⟩, ⟨2, 0, 2, 2⟩], errs := [],
             rateWaits := 0, genErrs := 0 } := by
  have h := get_vacancies_success_pages (fun j => Response.ok (some 3) [j]) (fun _ => true)
      0 3 3 0 (fun j => [j]) [] [] 0 0 (fun _ => rfl) (fun _ => rfl) (by omega) (by omega)
  rw [h]
  rfl

theorem loop_measure_some {α : Type} (env : Nat → Response α) (running : Nat → Bool)
    (i n : Nat) (henv : ∀ j p its, env j = Response.ok p its → p.getD 1 = n) :
    ∀ fuel (s : LoopState α), s.page ≤ n →
      (n - s.page) * 3 + s.retries ≤ fuel →
      (get_vacancies_loop env running i fuel s).isSome = true := by
  intro fuel
  induction fuel with
  | zero =>
    intro s hp hm
    have h0 : s.retries = 0 := by omega
    rw [loop_exit_retries env running i 0 s h0]
    simp
  | succ f ihf =>
    intro s hp hm
    by_cases hcc : running s.t = true ∧ 0 < s.retries
    · have hrr := hcc.2
      rw [loop_succ_cont env running i f s hcc]
      cases hr : env s.j with
      | ok pages items =>
        have hpg : pages.getD 1 = n := henv s.j pages items hr
        simp only [get_vacancies_step]
        by_cases hbr : pages.getD 1 - 1 ≤ s.page
        · rw [if_pos hbr]
          simp
        · rw [if_neg hbr]
          rw [hpg] at hbr
          exact ihf _ (by simp; omega) (by simp [MAX_RETRIES]; omega)
      | forbidden =>
        simp only [get_vacancies_step]
        exact ihf _ (by simp; omega) (by simp; omega)
      | httpError =>
        simp only [get_vacancies_step]
        exact ihf _ (by simp; omega) (by simp; omega)
      | netError =>
        simp only [get_vacancies_step]
        exact ihf _ (by simp; omega) (by simp; omega)
      | generalError =>
        simp only [get_vacancies_step]
        simp
    · rw [loop_exit_neg env running i (f + 1) s hcc]
      simp
  
theorem loop_log_growth {α : Type} (env : Nat → Response α) (running : Nat → Bool)
    (i : Nat) :
    ∀ fuel (s s1 : LoopState α), get_vacancies_loop env running i fuel s = some s1 →
      s1.log.length ≤ s.log.length + fuel := by
  intro fuel
  induction fuel with
  | zero =>
    intro s s1 h
    by_cases hcc : running s.t = true ∧ 0 < s.retries
    · simp [get_vacancies_loop, hcc] at h
    · rw [loop_exit_neg env running i 0 s hcc] at h
      obtain rfl := Option.some.inj h
      simp
  | succ f ihf =>
    intro s s1 h
    by_cases hcc : running s.t = true ∧ 0 < s.retries
    · rw [loop_succ_cont env running i f s hcc] at h
      have hsf := step_state_facts i (env s.j) s
      cases hstep : get_vacancies_step i (env s.j) s with
      | next s2 =>
        rw [hstep] at h hsf
        simp only [StepOut.state] at hsf
        have h1 := ihf s2 s1 h
        have h2 : s2.log.length = s.log.length + 1 := by
          rw [hsf.2.1]; simp
        omega
      | done s2 =>
        rw [hstep] at h hsf
        simp only [StepOut.state] at hsf
        obtain rfl := Option.some.inj h
        have h2 : s2.log.length = s.log.length + 1 := by
          rw [hsf.2.1]; simp
        omega
    · rw [loop_exit_neg env running i (f + 1) s hcc] at h
      obtain rfl := Option.some.inj h
      simp

/-- Claim C8: under the hypothesis that every successful response of the
interval reports the same total page count `n` (via
`data.get("pages", 1)`), `get_vacancies` terminates for that interval:
each iteration either advances the page (which stays bounded by `n`) or
decrements the retry counter (which starts at `MAX_RETRIES = 3` and is
reset only by a successful fetch), so a fuel of
`(n - page) * MAX_RETRIES + retries` suffices for the loop to finish,
and the number of requests issued is bounded by that same quantity. -/
theorem get_vacancies_terminates {α : Type} (env : Nat → Response α)
    (running : Nat → Bool) (i n : Nat) (s : LoopState α)
    (henv : ∀ j p its, env j = Response.ok p its → p.getD 1 = n)
    (hpage : s.page ≤ n) :
    ∃ s1, get_vacancies_loop env running i
        ((n - s.page) * MAX_RETRIES + s.retries) s = some s1 ∧
      s1.log.length ≤ s.log.length + ((n - s.page) * MAX_RETRIES + s.retries) := by
  have hs := loop_measure_some env running i n henv ((n - s.page) * 3 + s.retries) s
      hpage (Nat.le_refl _)
  obtain ⟨s1, hs1⟩ := Option.isSome_iff_exists.mp hs
  exact ⟨s1, hs1, loop_log_growth env running i _ s s1 hs1⟩

/-- Claim C8, witness: a one-page interval terminates within the bound
`(1 - 0) * MAX_RETRIES + MAX_RETRIES = 6`. -/
theorem get_vacancies_terminates_witness :
    (get_vacancies_loop (fun _ => Response.ok (some 1) ([] : List Nat)) (fun _ => true) 0 6
        (initLoop 0 [] [] 0 0)).isSome = true := by
  obtain ⟨s1, h1, h2⟩ := get_vacancies_terminates
      (fun _ => Response.ok (some 1) ([] : List Nat)) (fun _ => true) 0 1
      (initLoop 0 [] [] 0 0)
      (fun j p its hok => by cases hok; rfl) (by simp [initLoop])
  have h3 : get_vacancies_loop (fun _ => Response.ok (some 1) ([] : List Nat))
      (fun _ => true) 0 6 (initLoop 0 [] [] 0 0) = some s1 := h1
  rw [h3]
  rfl

/-- Claim C3, witness: a two-interval run whose every request fails with
a network error: the first interval is abandoned after three reported
retries with nothing collected and the run moves on to the second
interval. -/
theorem network_error_budget_exhaustion_witness :
    parse_loop (fun _ _ => (Response.netError : Response Nat)) (fun _ => true) 3
        ([0, 1] : List Nat) 0 ⟨0, [], [], [], 0, 0⟩ =
      parse_loop (fun _ _ => (Response.netError : Response Nat)) (fun _ => true) 3
        ([1] : List Nat) 1
        ⟨5, [], [⟨1, 0, 0, 0⟩, ⟨2, 0, 1, 0⟩, ⟨3, 0, 2, 0⟩], [2, 1, 0], 0, 0⟩ := by
  have h := network_error_budget_exhaustion (fun _ _ => (Response.netError : Response Nat))
      (fun _ => true) 3 (0 : Nat) [1] 0 ⟨0, [], [], [], 0, 0⟩ (fun _ => rfl) (fun _ => rfl)
      (Nat.le_refl 3)
  simpa using h
